import Mathlib

/-! Verification of the SlideShow repository's two cores against its natural-language
specification: the browser-side live-update channel (`useLocalMediaManager.js`) and the
server-side folder-mirror job (`GoogleDriveService`).  Definitions are shallow embeddings
translated from the source; theorems settle the specification's claims about them. -/

/-- Media item record pushed over the live-update channel (client typedef MediaItem). -/
structure MediaItem where
  id : String
  path : String
  type : String
deriving DecidableEq, Repr

/-- WebSocket connection status values used by the hook
('disconnected' / 'connecting' / 'connected' / 'error'). -/
inductive WsStatus
  | disconnected
  | connecting
  | connected
  | error
deriving DecidableEq, Repr

/-- Reconnection configuration read from frontendConfig.websocket:
maxReconnectAttempts and reconnectInterval. -/
structure WsConfig where
  maxReconnectAttempts : Nat
  reconnectInterval : Nat
deriving DecidableEq, Repr

/-- State held by useLocalMediaManager: the useState cells (allMedia, currentIndex,
loading, webSocketStatus, serverReady), the reconnectAttemptsRef and reconnect-timer
refs, plus `connOpen`, which records whether the underlying WebSocket is currently
open (the browser delivers message events only between open and close, so the
onmessage handler can only run while `connOpen` is true). -/
structure ChannelState where
  allMedia : List MediaItem
  currentIndex : Int
  loading : Bool
  webSocketStatus : WsStatus
  serverReady : Bool
  reconnectAttempts : Nat
  reconnectTimerPending : Bool
  connOpen : Bool
deriving DecidableEq, Repr

/-- Initial hook state: useState([]), useState(0), useState(true),
useState('disconnected'), useState(false); reconnectAttemptsRef starts at 0 and no
reconnect timer is pending. -/
def initChannelState : ChannelState where
  allMedia := []
  currentIndex := 0
  loading := true
  webSocketStatus := WsStatus.disconnected
  serverReady := false
  reconnectAttempts := 0
  reconnectTimerPending := false
  connOpen := false

/-- The ws.onmessage handler body for a 'mediaList' / 'mediaUpdate' frame:
setAllMedia(data.media); setCurrentIndex(prev => prev >= data.media.length ? 0 : prev);
setLoading(false). -/
def handleMediaMessage (media : List MediaItem) (st : ChannelState) : ChannelState :=
  { st with
      allMedia := media
      currentIndex := if st.currentIndex ≥ (media.length : Int) then 0 else st.currentIndex
      loading := false }

/-- Navigation direction argument of navigateMedia ('next' | 'previous'). -/
inductive Direction
  | next
  | previous
deriving DecidableEq, Repr

/-- navigateMedia: returns early (no state change) when allMedia.length === 0;
otherwise moves the index with setCurrentIndex(prev => (prev + 1) % allMedia.length)
for 'next' and (prev - 1 + allMedia.length) % allMedia.length for 'previous'.
Indices are JS numbers, embedded as Int (JS % on the non-negative operands produced
here agrees with Int.emod). -/
def navigateMedia (dir : Direction) (st : ChannelState) : ChannelState :=
  if st.allMedia.length = 0 then st
  else
    { st with
        currentIndex :=
          match dir with
          | Direction.next => (st.currentIndex + 1) % (st.allMedia.length : Int)
          | Direction.previous =>
              (st.currentIndex - 1 + (st.allMedia.length : Int)) % (st.allMedia.length : Int) }

/-- The exposed serverReady flag of the hook's return value:
`serverReady: serverReady || allMedia.length > 0`. -/
def serverReadyExposed (st : ChannelState) : Bool :=
  st.serverReady || decide (0 < st.allMedia.length)

/-- Events delivered to the WebSocket callbacks of one channel run. -/
inductive WsEvent
  | wsOpen
  | wsMessage (media : List MediaItem)
  | wsError
  | wsClose
deriving DecidableEq, Repr

/-- One callback dispatch of the hook.  Returns the successor state together with the
delay of the reconnect that this event scheduled, if any (ws.onclose is the only
handler that calls setTimeout(connect, RECONNECT_INTERVAL)).
 - onopen: status 'connected', serverReady true, attempts reset to 0, pending timer
   cleared.
 - onmessage: runs `handleMediaMessage` (only deliverable while the socket is open).
 - onerror: status 'error'.
 - onclose: status 'disconnected', socket handle cleared; if the schedule is active
   and the attempt counter is below MAX_RECONNECT_ATTEMPTS, the counter is
   incremented and one reconnect is scheduled after RECONNECT_INTERVAL. -/
def stepEvent (cfg : WsConfig) (isScheduleActive : Bool) (ev : WsEvent) (st : ChannelState) :
    ChannelState × Option Nat :=
  match ev with
  | WsEvent.wsOpen =>
      ({ st with
          webSocketStatus := WsStatus.connected
          serverReady := true
          reconnectAttempts := 0
          reconnectTimerPending := false
          connOpen := true }, none)
  | WsEvent.wsMessage media =>
      (if st.connOpen then handleMediaMessage media st else st, none)
  | WsEvent.wsError =>
      ({ st with webSocketStatus := WsStatus.error }, none)
  | WsEvent.wsClose =>
      if isScheduleActive = true ∧ st.reconnectAttempts < cfg.maxReconnectAttempts then
        ({ st with
            webSocketStatus := WsStatus.disconnected
            connOpen := false
            reconnectAttempts := st.reconnectAttempts + 1
            reconnectTimerPending := true }, some cfg.reconnectInterval)
      else
        ({ st with
            webSocketStatus := WsStatus.disconnected
            connOpen := false }, none)

/-- Runs a list of WebSocket events through `stepEvent`, returning the final state. -/
def runEvents (cfg : WsConfig) (active : Bool) : List WsEvent → ChannelState → ChannelState
  | [], st => st
  | e :: rest, st => runEvents cfg active rest (stepEvent cfg active e st).1

/-- The reconnect delays scheduled while running a list of events (one entry per
setTimeout(connect, RECONNECT_INTERVAL) call). -/
def scheduledDelays (cfg : WsConfig) (active : Bool) : List WsEvent → ChannelState → List Nat
  | [], _ => []
  | e :: rest, st =>
      (stepEvent cfg active e st).2.toList ++ scheduledDelays cfg active rest (stepEvent cfg active e st).1

/-- Remote file record as listed by the Drive API:
fields(id, name, mimeType, parents) — parents is never read by the sync logic. -/
structure DriveFile where
  id : String
  name : String
  mimeType : String
deriving DecidableEq, Repr

/-- Environment of one reconciliation pass: the outcome of downloadFile for a given
file id and the outcome of fs.remove for a given local file name. -/
structure DriveEnv where
  download : String → Except String Unit
  remove : String → Except String Unit

/-- Observable state of the mirror directory during a pass: the set of file names on
disk (fs) plus the logger output (log). -/
structure PassState where
  fs : List String
  log : List String
deriving DecidableEq, Repr

/-- Body of the download loop for one remote file: if a file of that name already
exists locally the file is skipped (continue); otherwise downloadFile runs, and a
download error is caught, logged with logger.warn, and the loop continues. -/
def downloadStep (env : DriveEnv) (st : PassState) (f : DriveFile) : PassState :=
  if f.name ∈ st.fs then st
  else
    match env.download f.id with
    | Except.ok _ =>
        { fs := st.fs ++ [f.name], log := st.log ++ ["Downloaded: " ++ f.name] }
    | Except.error e =>
        { st with log := st.log ++ ["Failed to download " ++ f.name ++ ", skipping: " ++ e] }

/-- The download loop of syncFiles: `for (const file of files) ...`. -/
def downloadLoop (env : DriveEnv) (files : List DriveFile) (st : PassState) : PassState :=
  files.foldl (downloadStep env) st

/-- Body of the removal loop for one local file name: if no remote file has this name,
fs.remove runs, and a removal error is caught, logged with logger.warn, and the loop
continues. -/
def removeStep (env : DriveEnv) (files : List DriveFile) (st : PassState) (localFile : String) :
    PassState :=
  if files.any (fun file => file.name == localFile) then st
  else
    match env.remove localFile with
    | Except.ok _ =>
        { fs := st.fs.filter (fun m => m != localFile),
          log := st.log ++ ["Removed local file: " ++ localFile] }
    | Except.error e =>
        { st with log := st.log ++ ["Failed to remove " ++ localFile ++ ": " ++ e] }

/-- The removal loop of syncFiles over the fs.readdir snapshot. -/
def removeLoop (env : DriveEnv) (files : List DriveFile) (localFiles : List String)
    (st : PassState) : PassState :=
  localFiles.foldl (removeStep env files) st

/-- One successful attempt body of syncFiles after listing: read the local directory
(localFiles snapshot is taken before any download), download missing remote files,
then remove local files that no longer exist in Drive. -/
def syncPass (env : DriveEnv) (files : List DriveFile) (st : PassState) : PassState :=
  let localFiles := st.fs
  removeLoop env files localFiles (downloadLoop env files st)

/-- MAX_RETRIES constant of syncFiles. -/
def MAX_RETRIES : Nat := 3

/-- Result of one syncFiles call: the returned value (or propagated error), the final
mirror state, the backoff delays awaited between attempts
(each `setTimeout(resolve, 1000 * attempt)`), and how many attempts executed their
download/removal loops. -/
structure SyncRun where
  result : Except String (List DriveFile)
  state : PassState
  waits : List Nat
  passes : Nat
deriving Repr

/-- The retry loop of syncFiles: `while (attempt < MAX_RETRIES)`.  `listing k` is the
outcome of `this.listFiles()` on the k-th attempt (1-based).  On a successful listing
the attempt performs its downloads and removals and returns the file list; on a
failure the attempt counter is incremented, the failure is logged, and either the
error is rethrown (attempt === MAX_RETRIES) or the loop waits 1000 * attempt ms and
retries.  The second Nat argument is the remaining number of loop iterations,
MAX_RETRIES - attempt; the fuel-0 case is the (unreachable) fall-through of the
while loop, where the JS function would return undefined. -/
def syncFilesAux (env : DriveEnv) (listing : Nat → Except String (List DriveFile)) :
    PassState → Nat → Nat → SyncRun
  | st, _, 0 =>
      { result := Except.error "sync loop exited without result", state := st,
        waits := [], passes := 0 }
  | st, attempt, fuel + 1 =>
      match listing (attempt + 1) with
      | Except.ok files =>
          { result := Except.ok files, state := syncPass env files st,
            waits := [], passes := 1 }
      | Except.error e =>
          let st1 : PassState :=
            { st with log := st.log ++ ["Sync attempt " ++ toString (attempt + 1) ++ " failed: " ++ e] }
          if attempt + 1 = MAX_RETRIES then
            { result := Except.error e,
              state := { st1 with log := st1.log ++ ["Max retry attempts reached"] },
              waits := [], passes := 0 }
          else
            let rest := syncFilesAux env listing st1 (attempt + 1) fuel
            { rest with waits := 1000 * (attempt + 1) :: rest.waits }

/-- syncFiles(): the retry loop started with attempt = 0. -/
def syncFiles (env : DriveEnv) (listing : Nat → Except String (List DriveFile))
    (st : PassState) : SyncRun :=
  syncFilesAux env listing st 0 MAX_RETRIES

/-- The periodic setInterval callback installed by startSync: skips the cycle while
paused, otherwise awaits syncFiles and catches any propagated error, logging it
instead of crashing (`this.logger.error('Sync failed:', error)`). -/
def schedulerTick (env : DriveEnv) (listing : Nat → Except String (List DriveFile))
    (isPaused : Bool) (st : PassState) : PassState :=
  if isPaused then st
  else
    let run := syncFiles env listing st
    match run.result with
    | Except.ok _ => run.state
    | Except.error e => { run.state with log := run.state.log ++ ["Sync failed: " ++ e] }

/-- listFiles' validity filter: files.filter(file => isValidFile(file.name)), applied
to whatever list the Drive fetch produced.  The isValidFile predicate itself is
external configuration (an allowlist in utils/fileValidator.js, not part of this
core), so it is a parameter. -/
def listFiles (isValidFile : String → Bool) (files : List DriveFile) : List DriveFile :=
  files.filter (fun file => isValidFile file.name)

/-- Scheduling state of the GoogleDriveService instance: the isPaused flag and
whether a periodic syncInterval timer is currently installed. -/
structure JobState where
  isPaused : Bool
  syncScheduled : Bool
deriving DecidableEq, Repr

/-- startSync(interval): clears any existing interval first; if paused, logs and
returns without scheduling; otherwise installs the periodic interval and performs the
initial `if (!this.isPaused) await this.syncFiles()`.  The Nat component counts the
sync passes this call executed. -/
def startSyncJob (st : JobState) : JobState × Nat :=
  let st1 : JobState := { st with syncScheduled := false }
  if st1.isPaused then (st1, 0)
  else ({ st1 with syncScheduled := true }, 1)

/-- Operations on the mirror job: pause(), resume(), startSync(), stop(), and a fire
of the periodic timer. -/
inductive JobOp
  | pause
  | resume
  | startSync
  | stop
  | timerFire
deriving DecidableEq, Repr

/-- One operation on the job state, returning the number of sync passes it executed:
 - pause(): sets isPaused and calls stop(), which clears the interval;
 - resume(): clears isPaused and calls startSync(config.sync.interval);
 - startSync(): as `startSyncJob`;
 - stop(): clears the interval only;
 - a timer fire runs the interval callback, which executes a sync only when a timer
   is installed and `!this.isPaused`. -/
def stepJob : JobOp → JobState → JobState × Nat
  | JobOp.pause, _ => ({ isPaused := true, syncScheduled := false }, 0)
  | JobOp.resume, st => startSyncJob { st with isPaused := false }
  | JobOp.startSync, st => startSyncJob st
  | JobOp.stop, st => ({ st with syncScheduled := false }, 0)
  | JobOp.timerFire, st =>
      if st.syncScheduled = true ∧ st.isPaused = false then (st, 1) else (st, 0)

/-- Runs a list of job operations, accumulating how many sync passes executed. -/
def runJob : List JobOp → JobState → JobState × Nat
  | [], st => (st, 0)
  | op :: rest, st =>
      let s1 := stepJob op st
      let s2 := runJob rest s1.1
      (s2.1, s1.2 + s2.2)

/-- Outcome of the streaming phase of downloadFile: the local write stream finishes,
the local write stream errors, or the remote read stream errors. -/
inductive StreamOutcome
  | finish
  | destError (msg : String)
  | sourceError (msg : String)
deriving DecidableEq, Repr

/-- The promise returned by downloadFile once the response stream is piped into the
local write stream.  The source registers only `dest.on('finish', resolve)` and
`dest.on('error', reject)`; no handler is attached to the remote read stream, and
Node's pipe does not forward source-stream errors to the destination, so on a
read-stream error neither resolve nor reject is ever called — the promise never
settles, embedded as `none`. -/
def downloadFile : StreamOutcome → Option (Except String Unit)
  | StreamOutcome.finish => some (Except.ok ())
  | StreamOutcome.destError e => some (Except.error e)
  | StreamOutcome.sourceError _ => none

/-- Entry of the Drive folder tree as seen by fetchFilesFromDrive.  A folder entry is
recognised by mimeType 'application/vnd.google-apps.folder'; its children (the
entries the API would list for `'folderId' in parents`) are carried in the node. -/
inductive DriveEntry
  | fileE (id name : String)
  | folderE (id name : String) (children : List DriveEntry)

/-- Name field of a Drive entry record. -/
def entryName : DriveEntry → String
  | DriveEntry.fileE _ n => n
  | DriveEntry.folderE _ n _ => n

/-- Big-step semantics of fetchFilesFromDrive's loop.  `FetchFilesFromDrive pending out`
relates the not-yet-visited suffix of the `files` array to the entries the call
returns from that point on.  The JS `for (const file of files)` iterates an array
that is mutated by `files.push(...subfolderFiles)`, so when a folder entry is
visited, the fresh recursive call's result (`FetchFilesFromDrive cs sub`) is appended
at the end of the array — after `rest` — and iteration continues into the appended
elements, re-expanding any folder entries they contain. -/
inductive FetchFilesFromDrive : List DriveEntry → List DriveEntry → Prop
  | nil : FetchFilesFromDrive [] []
  | file : ∀ (i n : String) (rest out : List DriveEntry),
      FetchFilesFromDrive rest out →
      FetchFilesFromDrive (DriveEntry.fileE i n :: rest) (DriveEntry.fileE i n :: out)
  | folder : ∀ (i n : String) (cs rest sub out : List DriveEntry),
      FetchFilesFromDrive cs sub →
      FetchFilesFromDrive (rest ++ sub) out →
      FetchFilesFromDrive (DriveEntry.folderE i n cs :: rest) (DriveEntry.folderE i n cs :: out)

/-- listFiles applied to a fetched entry list: the isValidFile filter over names. -/
def listFilesFetched (isValidFile : String → Bool) (out : List DriveEntry) : List DriveEntry :=
  out.filter (fun e => isValidFile (entryName e))

/-- Number of occurrences of the file record with the given id and name in an entry
list (structural, to avoid needing decidable equality of whole subtrees). -/
def countFile (i n : String) : List DriveEntry → Nat
  | [] => 0
  | DriveEntry.fileE i2 n2 :: rest =>
      (if i2 = i ∧ n2 = n then 1 else 0) + countFile i n rest
  | DriveEntry.folderE _ _ _ :: rest => countFile i n rest

/-- Concrete media item used by witnesses and counterexamples. -/
def mediaItemA : MediaItem := { id := "m1", path := "/media/a.jpg", type := "image" }

/-- Second concrete media item used by witnesses. -/
def mediaItemB : MediaItem := { id := "m2", path := "/media/b.mp4", type := "video" }

/-- Environment in which every download and every removal succeeds. -/
def envAllOk : DriveEnv where
  download := fun _ => Except.ok ()
  remove := fun _ => Except.ok ()

/-- The remote folder of the specification's worked example: {a.jpg, b.mp4}. -/
def remoteExample : List DriveFile :=
  [{ id := "r1", name := "a.jpg", mimeType := "image/jpeg" },
   { id := "r2", name := "b.mp4", mimeType := "video/mp4" }]

/-- A filename-validity predicate accepting every name. -/
def validAll : String → Bool := fun _ => true

/-- The local mirror of the specification's worked example: {a.jpg, c.jpg}. -/
def stExample : PassState := { fs := ["a.jpg", "c.jpg"], log := [] }

/-- Listing oracle that always returns the example remote file list. -/
def listingExample : Nat → Except String (List DriveFile) :=
  fun _ => Except.ok (listFiles validAll remoteExample)

/-- Listing oracle that fails on attempts 1 and 2 and succeeds on attempt 3. -/
def ocSucceedThird : Nat → Except String (List DriveFile) :=
  fun k => if k = 3 then Except.ok [] else Except.error "listing failed"

/-- Listing oracle that fails on every attempt. -/
def ocAlwaysFail : Nat → Except String (List DriveFile) :=
  fun _ => Except.error "listing failed"

/-- Environment in which the download of file id rBad and the removal of
locked.tmp fail, and everything else succeeds. -/
def envPartial : DriveEnv where
  download := fun i => if i == "rBad" then Except.error "boom" else Except.ok ()
  remove := fun nm => if nm == "locked.tmp" then Except.error "locked" else Except.ok ()

/-- Remote list with one downloadable file and one whose download fails. -/
def filesC4 : List DriveFile :=
  [{ id := "r1", name := "a.jpg", mimeType := "image/jpeg" },
   { id := "rBad", name := "bad.jpg", mimeType := "image/jpeg" }]

/-- Local mirror holding one undeletable stale file and one deletable stale file. -/
def stC4 : PassState := { fs := ["locked.tmp", "old.jpg"], log := [] }

/-- Listing oracle that always returns `filesC4`. -/
def listingC4 : Nat → Except String (List DriveFile) := fun _ => Except.ok filesC4

/-- Concrete reconnect configuration used by witnesses. -/
def cfgEx : WsConfig := { maxReconnectAttempts := 2, reconnectInterval := 7000 }

/-- Concrete Drive tree used by the C10 witness: a file two folder levels below the
root. -/
def entX : DriveEntry := DriveEntry.fileE "f3" "x.jpg"

/-- Depth-2 subfolder holding `entX`. -/
def entF2 : DriveEntry := DriveEntry.folderE "f2" "Sub2" [entX]

/-- Depth-1 subfolder holding `entF2`. -/
def entF1 : DriveEntry := DriveEntry.folderE "f1" "Sub1" [entF2]

/-! ## Claim C2: mediaList / mediaUpdate index rule -/

/-- C2 counterexample: the claim "the index is always clamped into [0, length)" fails
at the concrete input of an empty mediaList snapshot delivered to a state holding one
item at index 0 — the handler sets the index to 0, but 0 is not below the new length
0, so no index in [0, 0) exists. -/
theorem handleMediaMessage_empty_snapshot_cex :
    (handleMediaMessage [] { initChannelState with allMedia := [mediaItemA] }).currentIndex = 0
    ∧ ¬ ((handleMediaMessage [] { initChannelState with allMedia := [mediaItemA] }).currentIndex
        < ((handleMediaMessage []
            { initChannelState with allMedia := [mediaItemA] }).allMedia.length : Int)) := by
  decide

/-- C2 (amended): on a mediaList / mediaUpdate message the handler replaces the full
item sequence; the index resets to 0 when the old index is ≥ the new length and is
preserved otherwise; consequently, whenever the new snapshot is nonempty the index
lies in [0, length), and for an empty snapshot the index is 0. -/
theorem handleMediaMessage_index_rule (media : List MediaItem) (st : ChannelState)
    (h0 : 0 ≤ st.currentIndex) :
    (handleMediaMessage media st).allMedia = media
    ∧ (handleMediaMessage media st).currentIndex =
        (if st.currentIndex ≥ (media.length : Int) then 0 else st.currentIndex)
    ∧ (0 < media.length →
        0 ≤ (handleMediaMessage media st).currentIndex
        ∧ (handleMediaMessage media st).currentIndex < (media.length : Int))
    ∧ (media.length = 0 → (handleMediaMessage media st).currentIndex = 0) := by
  refine ⟨rfl, rfl, ?_, ?_⟩
  · intro hlen
    show 0 ≤ (if st.currentIndex ≥ (media.length : Int) then 0 else st.currentIndex)
        ∧ (if st.currentIndex ≥ (media.length : Int) then 0 else st.currentIndex)
          < (media.length : Int)
    split
    · omega
    · omega
  · intro hz
    show (if st.currentIndex ≥ (media.length : Int) then 0 else st.currentIndex) = 0
    split
    · rfl
    · omega

/-- C2 witness: a concrete one-item snapshot delivered at out-of-range index 5 leaves
the index inside [0, 1). -/
theorem handleMediaMessage_index_rule_witness :
    0 ≤ (handleMediaMessage [mediaItemA] { initChannelState with currentIndex := 5 }).currentIndex
    ∧ (handleMediaMessage [mediaItemA]
        { initChannelState with currentIndex := 5 }).currentIndex
      < (([mediaItemA] : List MediaItem).length : Int) :=
  (handleMediaMessage_index_rule [mediaItemA] { initChannelState with currentIndex := 5 }
    (by decide)).2.2.1 (by decide)

/-! ## Claim C3: navigateMedia wraparound -/

/-- C3: for a nonempty list (0 ≤ index < length), navigating next then previous
returns to the original index; at index 0 'previous' wraps to length - 1; at index
length - 1 'next' wraps to 0; and with zero items navigation in either direction is a
no-op. -/
theorem navigateMedia_roundtrip (st st0 : ChannelState) (dir : Direction)
    (h0 : 0 ≤ st.currentIndex) (hlt : st.currentIndex < (st.allMedia.length : Int))
    (hz : st0.allMedia.length = 0) :
    (navigateMedia Direction.previous (navigateMedia Direction.next st)).currentIndex
      = st.currentIndex
    ∧ (st.currentIndex = 0 →
        (navigateMedia Direction.previous st).currentIndex = (st.allMedia.length : Int) - 1)
    ∧ (st.currentIndex = (st.allMedia.length : Int) - 1 →
        (navigateMedia Direction.next st).currentIndex = 0)
    ∧ navigateMedia dir st0 = st0 := by
  have hlen : st.allMedia.length ≠ 0 := by omega
  have hN : (1 : Int) ≤ (st.allMedia.length : Int) := by omega
  refine ⟨?_, ?_, ?_, ?_⟩
  · have h1 : navigateMedia Direction.next st
        = { st with currentIndex := (st.currentIndex + 1) % (st.allMedia.length : Int) } := by
      simp [navigateMedia, hlen]
    rw [h1]
    have h2 : (navigateMedia Direction.previous
        { st with currentIndex := (st.currentIndex + 1) % (st.allMedia.length : Int) }).currentIndex
        = ((st.currentIndex + 1) % (st.allMedia.length : Int) - 1 + (st.allMedia.length : Int))
            % (st.allMedia.length : Int) := by
      simp [navigateMedia, hlen]
    rw [h2]
    rw [show (st.currentIndex + 1) % (st.allMedia.length : Int) - 1 + (st.allMedia.length : Int)
        = (st.currentIndex + 1) % (st.allMedia.length : Int) + ((st.allMedia.length : Int) - 1)
        by ring]
    rw [Int.emod_add_emod]
    rw [show st.currentIndex + 1 + ((st.allMedia.length : Int) - 1)
        = st.currentIndex + (st.allMedia.length : Int) * 1 by ring]
    rw [Int.add_mul_emod_self_left, Int.emod_eq_of_lt h0 hlt]
  · intro hi
    have : (navigateMedia Direction.previous st).currentIndex
        = (st.currentIndex - 1 + (st.allMedia.length : Int)) % (st.allMedia.length : Int) := by
      simp [navigateMedia, hlen]
    rw [this, hi]
    rw [show (0 : Int) - 1 + (st.allMedia.length : Int) = (st.allMedia.length : Int) - 1 by ring]
    exact Int.emod_eq_of_lt (by omega) (by omega)
  · intro hi
    have : (navigateMedia Direction.next st).currentIndex
        = (st.currentIndex + 1) % (st.allMedia.length : Int) := by
      simp [navigateMedia, hlen]
    rw [this, hi]
    rw [show (st.allMedia.length : Int) - 1 + 1 = (st.allMedia.length : Int) by ring]
    exact Int.emod_self
  · simp [navigateMedia, hz]

/-- C3 witness: on a concrete two-item list at index 0, next-then-previous is the
identity on the index. -/
theorem navigateMedia_roundtrip_witness :
    (navigateMedia Direction.previous (navigateMedia Direction.next
        { initChannelState with allMedia := [mediaItemA, mediaItemB] })).currentIndex = 0 :=
  (navigateMedia_roundtrip { initChannelState with allMedia := [mediaItemA, mediaItemB] }
    initChannelState Direction.next (by decide) (by decide) (by decide)).1

/-! ## Mirror-pass helper lemmas -/

/-- Membership in the mirror after the download loop: a name is present exactly when
it was already present or some listed file carries that name and its download
succeeds. -/
theorem downloadLoop_fs_mem (env : DriveEnv) (files : List DriveFile) :
    ∀ (st : PassState) (n : String),
      n ∈ (downloadLoop env files st).fs
        ↔ n ∈ st.fs ∨ ∃ f ∈ files, f.name = n ∧ (env.download f.id).isOk = true := by
  induction files with
  | nil => intro st n; simp [downloadLoop]
  | cons f fs ih =>
    intro st n
    have hrec : downloadLoop env (f :: fs) st = downloadLoop env fs (downloadStep env st f) := rfl
    have hstepmem : ∀ m, m ∈ (downloadStep env st f).fs
        ↔ m ∈ st.fs ∨ (f.name = m ∧ (env.download f.id).isOk = true) := by
      intro m
      by_cases hf : f.name ∈ st.fs
      · have hfs : (downloadStep env st f).fs = st.fs := by
          unfold downloadStep
          rw [if_pos hf]
        rw [hfs]
        constructor
        · exact Or.inl
        · rintro (h | ⟨he, _⟩)
          · exact h
          · exact he ▸ hf
      · rcases hd : env.download f.id with e | u
        · have hfs : (downloadStep env st f).fs = st.fs := by
            unfold downloadStep
            rw [if_neg hf, hd]
          rw [hfs]
          constructor
          · exact Or.inl
          · rintro (h | ⟨-, hok⟩)
            · exact h
            · simp [Except.isOk, Except.toBool] at hok
        · have hfs : (downloadStep env st f).fs = st.fs ++ [f.name] := by
            unfold downloadStep
            rw [if_neg hf, hd]
          rw [hfs]
          constructor
          · intro hm
            rcases List.mem_append.mp hm with h | h
            · exact Or.inl h
            · exact Or.inr ⟨(List.mem_singleton.mp h).symm, rfl⟩
          · rintro (h | ⟨he, -⟩)
            · exact List.mem_append.mpr (Or.inl h)
            · exact List.mem_append.mpr (Or.inr (by rw [he]; exact List.mem_singleton.mpr rfl))
    have hcons : (∃ g ∈ f :: fs, g.name = n ∧ (env.download g.id).isOk = true)
        ↔ (f.name = n ∧ (env.download f.id).isOk = true)
          ∨ ∃ g ∈ fs, g.name = n ∧ (env.download g.id).isOk = true := by
      simp [List.mem_cons, or_and_right, exists_or, exists_eq_left]
    rw [hrec, ih, hstepmem, hcons]
    tauto

/-- Membership in the mirror after the removal loop: a name survives exactly when it
was present before and, whenever it is one of the scanned local names, it either
still matches some remote file or its removal fails. -/
theorem removeLoop_fs_mem (env : DriveEnv) (files : List DriveFile) :
    ∀ (locals : List String) (st : PassState) (m : String),
      m ∈ (removeLoop env files locals st).fs
        ↔ m ∈ st.fs ∧ (m ∈ locals →
            files.any (fun f => f.name == m) = true ∨ (env.remove m).isOk = false) := by
  intro locals
  induction locals with
  | nil => intro st m; simp [removeLoop]
  | cons l ls ih =>
    intro st m
    have hrec : removeLoop env files (l :: ls) st
        = removeLoop env files ls (removeStep env files st l) := rfl
    have hstepmem : m ∈ (removeStep env files st l).fs
        ↔ m ∈ st.fs ∧ (m = l →
            files.any (fun f => f.name == m) = true ∨ (env.remove m).isOk = false) := by
      unfold removeStep
      by_cases hA : files.any (fun file => file.name == l) = true
      · simp only [if_pos hA]
        constructor
        · intro hx
          exact ⟨hx, fun he => Or.inl (by rw [he]; exact hA)⟩
        · exact fun h => h.1
      · simp only [if_neg hA]
        rcases hr : env.remove l with e | u
        · constructor
          · intro hx
            exact ⟨hx, fun he => Or.inr (by rw [he, hr]; rfl)⟩
          · exact fun h => h.1
        · by_cases hml : m = l
          · subst hml
            simp only [List.mem_filter]
            constructor
            · rintro ⟨-, hne⟩
              simp at hne
            · rintro ⟨-, himp⟩
              rcases himp (by trivial) with h1 | h2
              · exact absurd h1 hA
              · rw [hr] at h2
                simp [Except.isOk, Except.toBool] at h2
          · simp only [List.mem_filter]
            constructor
            · rintro ⟨hm, -⟩
              exact ⟨hm, fun he => absurd he hml⟩
            · rintro ⟨hm, -⟩
              refine ⟨hm, ?_⟩
              simp [hml]
    rw [hrec, ih, hstepmem]
    constructor
    · rintro ⟨⟨hm, h1⟩, h2⟩
      refine ⟨hm, ?_⟩
      intro hml
      rcases List.mem_cons.mp hml with he | hmem
      · exact h1 he
      · exact h2 hmem
    · rintro ⟨hm, h⟩
      exact ⟨⟨hm, fun he => h (by rw [he]; exact List.mem_cons_self l ls)⟩,
             fun hmem => h (List.mem_cons_of_mem l hmem)⟩

/-- The download loop only appends to the log. -/
theorem downloadLoop_log_extend (env : DriveEnv) (files : List DriveFile) :
    ∀ st : PassState, ∃ t, (downloadLoop env files st).log = st.log ++ t := by
  induction files with
  | nil => intro st; exact ⟨[], by simp [downloadLoop]⟩
  | cons f fs ih =>
    intro st
    obtain ⟨t, ht⟩ := ih (downloadStep env st f)
    have hstep : ∃ c, (downloadStep env st f).log = st.log ++ c := by
      by_cases hf : f.name ∈ st.fs
      · exact ⟨[], by unfold downloadStep; rw [if_pos hf]; simp⟩
      · rcases hd : env.download f.id with e | u
        · exact ⟨["Failed to download " ++ f.name ++ ", skipping: " ++ e],
            by unfold downloadStep; rw [if_neg hf, hd]⟩
        · exact ⟨["Downloaded: " ++ f.name],
            by unfold downloadStep; rw [if_neg hf, hd]⟩
    obtain ⟨c, hc⟩ := hstep
    refine ⟨c ++ t, ?_⟩
    rw [show downloadLoop env (f :: fs) st = downloadLoop env fs (downloadStep env st f) from rfl,
      ht, hc, List.append_assoc]

/-- The removal loop only appends to the log. -/
theorem removeLoop_log_extend (env : DriveEnv) (files : List DriveFile) :
    ∀ (locals : List String) (st : PassState),
      ∃ t, (removeLoop env files locals st).log = st.log ++ t := by
  intro locals
  induction locals with
  | nil => intro st; exact ⟨[], by simp [removeLoop]⟩
  | cons l ls ih =>
    intro st
    obtain ⟨t, ht⟩ := ih (removeStep env files st l)
    have hstep : ∃ c, (removeStep env files st l).log = st.log ++ c := by
      by_cases hA : files.any (fun file => file.name == l) = true
      · exact ⟨[], by unfold removeStep; rw [if_pos hA]; simp⟩
      · rcases hr : env.remove l with e | u
        · exact ⟨["Failed to remove " ++ l ++ ": " ++ e],
            by unfold removeStep; rw [if_neg hA, hr]⟩
        · exact ⟨["Removed local file: " ++ l],
            by unfold removeStep; rw [if_neg hA, hr]⟩
    obtain ⟨c, hc⟩ := hstep
    refine ⟨c ++ t, ?_⟩
    rw [show removeLoop env files (l :: ls) st = removeLoop env files ls (removeStep env files st l)
        from rfl, ht, hc, List.append_assoc]

/-- The mirror contents after the download loop depend only on the incoming fs
component, not on the log. -/
theorem downloadLoop_fs_congr (env : DriveEnv) (files : List DriveFile) :
    ∀ st st' : PassState, st.fs = st'.fs →
      (downloadLoop env files st).fs = (downloadLoop env files st').fs := by
  induction files with
  | nil => intro st st' h; simpa [downloadLoop] using h
  | cons f fs ih =>
    intro st st' h
    have hstep : (downloadStep env st f).fs = (downloadStep env st' f).fs := by
      unfold downloadStep
      rw [h]
      by_cases hf : f.name ∈ st'.fs
      · rw [if_pos hf, if_pos hf]
        exact h
      · rw [if_neg hf, if_neg hf]
        rcases hd : env.download f.id with e | u <;> rfl
    exact ih _ _ hstep

/-- The mirror contents after the removal loop depend only on the incoming fs
component, not on the log. -/
theorem removeLoop_fs_congr (env : DriveEnv) (files : List DriveFile) :
    ∀ (locals : List String) (st st' : PassState), st.fs = st'.fs →
      (removeLoop env files locals st).fs = (removeLoop env files locals st').fs := by
  intro locals
  induction locals with
  | nil => intro st st' h; simpa [removeLoop] using h
  | cons l ls ih =>
    intro st st' h
    have hstep : (removeStep env files st l).fs = (removeStep env files st' l).fs := by
      unfold removeStep
      rw [h]
      by_cases hA : files.any (fun file => file.name == l) = true
      · rw [if_pos hA, if_pos hA]
        exact h
      · rw [if_neg hA, if_neg hA]
        rcases hr : env.remove l with e | u <;> rfl
    exact ih _ _ hstep

/-- The mirror contents after one full pass depend only on the incoming fs
component, not on the log. -/
theorem syncPass_fs_congr (env : DriveEnv) (files : List DriveFile) (st st' : PassState)
    (h : st.fs = st'.fs) : (syncPass env files st).fs = (syncPass env files st').fs := by
  unfold syncPass
  rw [h]
  exact removeLoop_fs_congr env files st'.fs _ _ (downloadLoop_fs_congr env files st st' h)

/-- A syncFiles call whose first listing succeeds performs exactly one pass and
returns that listing. -/
theorem syncFiles_first_ok (env : DriveEnv) (listing : Nat → Except String (List DriveFile))
    (st : PassState) (files : List DriveFile) (h : listing 1 = Except.ok files) :
    syncFiles env listing st
      = { result := Except.ok files, state := syncPass env files st,
          waits := [], passes := 1 } := by
  have h1 : listing (0 + 1) = Except.ok files := h
  simp [syncFiles, MAX_RETRIES, syncFilesAux, h1]

/-- A remote file all of whose same-named listings fail to download, and whose name
is not already on disk, is reported in the log by the download loop. -/
theorem downloadLoop_logs_failure (env : DriveEnv) :
    ∀ (files : List DriveFile) (f : DriveFile) (e : String) (st : PassState),
      f ∈ files → env.download f.id = Except.error e → f.name ∉ st.fs →
      (∀ g ∈ files, g.name = f.name → env.download g.id = Except.error e) →
      ("Failed to download " ++ f.name ++ ", skipping: " ++ e)
        ∈ (downloadLoop env files st).log := by
  intro files
  induction files with
  | nil =>
    intro f e st hf _ _ _
    exact absurd hf (List.not_mem_nil f)
  | cons g gs ih =>
    intro f e st hf hdf hnm hsame
    rw [show downloadLoop env (g :: gs) st = downloadLoop env gs (downloadStep env st g)
        from rfl]
    rcases List.mem_cons.mp hf with heq | hmem
    · subst heq
      have hstep : (downloadStep env st f).log
          = st.log ++ ["Failed to download " ++ f.name ++ ", skipping: " ++ e] := by
        unfold downloadStep
        rw [if_neg hnm, hdf]
      obtain ⟨t, ht⟩ := downloadLoop_log_extend env gs (downloadStep env st f)
      rw [ht, hstep]
      simp
    · have hnm2 : f.name ∉ (downloadStep env st g).fs := by
        by_cases hg : g.name ∈ st.fs
        · have hfs : (downloadStep env st g).fs = st.fs := by
            unfold downloadStep
            rw [if_pos hg]
          rw [hfs]
          exact hnm
        · rcases hd : env.download g.id with e2 | u
          · have hfs : (downloadStep env st g).fs = st.fs := by
              unfold downloadStep
              rw [if_neg hg, hd]
            rw [hfs]
            exact hnm
          · by_cases hgnm : g.name = f.name
            · have hcon := hsame g (List.mem_cons_self g gs) hgnm
              rw [hd] at hcon
              simp at hcon
            · have hfs : (downloadStep env st g).fs = st.fs ++ [g.name] := by
                unfold downloadStep
                rw [if_neg hg, hd]
              rw [hfs]
              intro hcon
              rcases List.mem_append.mp hcon with h1 | h1
              · exact hnm h1
              · exact hgnm (List.mem_singleton.mp h1).symm
      exact ih f e (downloadStep env st g) hmem hdf hnm2
        (fun g2 hg2 hn2 => hsame g2 (List.mem_cons_of_mem g hg2) hn2)

/-- A scanned local file that matches no remote name and whose removal fails is
reported in the log by the removal loop. -/
theorem removeLoop_logs_failure (env : DriveEnv) (files : List DriveFile) (em : String) :
    ∀ (locals : List String) (m : String) (st : PassState),
      m ∈ locals → files.any (fun file => file.name == m) = false →
      env.remove m = Except.error em →
      ("Failed to remove " ++ m ++ ": " ++ em) ∈ (removeLoop env files locals st).log := by
  intro locals
  induction locals with
  | nil =>
    intro m st hm _ _
    exact absurd hm (List.not_mem_nil m)
  | cons l ls ih =>
    intro m st hm hA hr
    rw [show removeLoop env files (l :: ls) st = removeLoop env files ls (removeStep env files st l)
        from rfl]
    rcases List.mem_cons.mp hm with heq | hmem
    · subst heq
      have hstep : (removeStep env files st m).log
          = st.log ++ ["Failed to remove " ++ m ++ ": " ++ em] := by
        unfold removeStep
        rw [if_neg (by simp [hA]), hr]
      obtain ⟨t, ht⟩ := removeLoop_log_extend env files ls (removeStep env files st m)
      rw [ht, hstep]
      simp
    · exact ih m (removeStep env files st l) hmem hA hr

/-! ## Claim C1: one successful pass mirrors the valid remote names -/

/-- C1: when the first listing attempt succeeds and every per-file download and
removal succeeds, a name is in the mirror directory after the syncFiles pass exactly
when some remote file with that name passes the validity filter: missing valid files
are downloaded, stale local files are deleted, common files are kept. -/
theorem syncFiles_reconciliation (env : DriveEnv)
    (listing : Nat → Except String (List DriveFile)) (remote : List DriveFile)
    (isValidFile : String → Bool) (st : PassState) (n : String)
    (hlist : listing 1 = Except.ok (listFiles isValidFile remote))
    (hdl : ∀ f ∈ listFiles isValidFile remote, (env.download f.id).isOk = true)
    (hrm : ∀ m ∈ st.fs, (env.remove m).isOk = true) :
    n ∈ (syncFiles env listing st).state.fs
      ↔ ∃ f ∈ remote, isValidFile f.name = true ∧ f.name = n := by
  rw [syncFiles_first_ok env listing st _ hlist]
  show n ∈ (syncPass env (listFiles isValidFile remote) st).fs ↔ _
  simp only [syncPass]
  rw [removeLoop_fs_mem, downloadLoop_fs_mem]
  constructor
  · rintro ⟨hin, himp⟩
    rcases hin with hfs | ⟨f, hfmem, hname, -⟩
    · rcases himp hfs with hany | hnotok
      · obtain ⟨f, hfm, hb⟩ := List.any_eq_true.mp hany
        have hname : f.name = n := by simpa using hb
        obtain ⟨hfr, hfv⟩ := List.mem_filter.mp hfm
        exact ⟨f, hfr, hfv, hname⟩
      · rw [hrm n hfs] at hnotok
        exact absurd hnotok (by decide)
    · obtain ⟨hfr, hfv⟩ := List.mem_filter.mp hfmem
      exact ⟨f, hfr, hfv, hname⟩
  · rintro ⟨f, hfr, hfv, hname⟩
    have hmemf : f ∈ listFiles isValidFile remote := List.mem_filter.mpr ⟨hfr, hfv⟩
    refine ⟨Or.inr ⟨f, hmemf, hname, hdl f hmemf⟩, ?_⟩
    intro _
    exact Or.inl (List.any_eq_true.mpr ⟨f, hmemf, by simp [hname]⟩)

/-- C1 witness: the specification's worked example — remote {a.jpg, b.mp4}, local
{a.jpg, c.jpg} — ends with b.mp4 downloaded, a.jpg kept and c.jpg deleted. -/
theorem syncFiles_reconciliation_witness :
    "b.mp4" ∈ (syncFiles envAllOk listingExample stExample).state.fs
    ∧ "a.jpg" ∈ (syncFiles envAllOk listingExample stExample).state.fs
    ∧ "c.jpg" ∉ (syncFiles envAllOk listingExample stExample).state.fs := by
  refine ⟨?_, ?_, ?_⟩
  · exact (syncFiles_reconciliation envAllOk listingExample remoteExample validAll stExample
      "b.mp4" rfl (fun f _ => rfl) (fun m _ => rfl)).mpr
      ⟨{ id := "r2", name := "b.mp4", mimeType := "video/mp4" }, by decide, rfl, rfl⟩
  · exact (syncFiles_reconciliation envAllOk listingExample remoteExample validAll stExample
      "a.jpg" rfl (fun f _ => rfl) (fun m _ => rfl)).mpr
      ⟨{ id := "r1", name := "a.jpg", mimeType := "image/jpeg" }, by decide, rfl, rfl⟩
  · intro hc
    have h2 := (syncFiles_reconciliation envAllOk listingExample remoteExample validAll stExample
      "c.jpg" rfl (fun f _ => rfl) (fun m _ => rfl)).mp hc
    revert h2
    decide

/-! ## Claim C4: per-file failures are logged and skipped -/

/-- C4: inside one syncFiles pass, a per-file download failure is logged and only
skips that file — the attempt still returns the listing with no retries and no
backoff waits, every other file whose download succeeds is still brought into the
mirror, and a per-file removal failure is likewise logged and only skips that
removal while other stale files are still deleted. -/
theorem syncPass_skip_policy
    (env : DriveEnv) (listing : Nat → Except String (List DriveFile))
    (files : List DriveFile) (st : PassState) (f : DriveFile) (e m em : String)
    (hlist : listing 1 = Except.ok files)
    (hf : f ∈ files) (hfe : env.download f.id = Except.error e) (hfn : f.name ∉ st.fs)
    (hsame : ∀ g ∈ files, g.name = f.name → env.download g.id = Except.error e)
    (hm : m ∈ st.fs) (hmA : files.any (fun file => file.name == m) = false)
    (hme : env.remove m = Except.error em) :
    (syncFiles env listing st).result = Except.ok files
    ∧ (syncFiles env listing st).waits = []
    ∧ (syncFiles env listing st).passes = 1
    ∧ (syncFiles env listing st).state = syncPass env files st
    ∧ f.name ∉ (syncPass env files st).fs
    ∧ (∀ g ∈ files, (env.download g.id).isOk = true → g.name ∈ (syncPass env files st).fs)
    ∧ ("Failed to download " ++ f.name ++ ", skipping: " ++ e) ∈ (syncPass env files st).log
    ∧ m ∈ (syncPass env files st).fs
    ∧ ("Failed to remove " ++ m ++ ": " ++ em) ∈ (syncPass env files st).log
    ∧ (∀ m2 ∈ st.fs, files.any (fun file => file.name == m2) = false →
        (env.remove m2).isOk = true → m2 ∉ (syncPass env files st).fs) := by
  have hok := syncFiles_first_ok env listing st files hlist
  have hmemiff : ∀ x, x ∈ (syncPass env files st).fs
      ↔ (x ∈ st.fs ∨ ∃ g ∈ files, g.name = x ∧ (env.download g.id).isOk = true)
        ∧ (x ∈ st.fs →
            files.any (fun file => file.name == x) = true ∨ (env.remove x).isOk = false) := by
    intro x
    simp only [syncPass]
    rw [removeLoop_fs_mem, downloadLoop_fs_mem]
  refine ⟨by rw [hok], by rw [hok], by rw [hok], by rw [hok], ?_, ?_, ?_, ?_, ?_, ?_⟩
  · rw [hmemiff f.name]
    rintro ⟨h1, -⟩
    rcases h1 with h1 | ⟨g, hg, hgn, hgok⟩
    · exact hfn h1
    · rw [hsame g hg hgn] at hgok
      simp [Except.isOk, Except.toBool] at hgok
  · intro g hg hgok
    rw [hmemiff g.name]
    refine ⟨Or.inr ⟨g, hg, rfl, hgok⟩, ?_⟩
    intro _
    exact Or.inl (List.any_eq_true.mpr ⟨g, hg, by simp⟩)
  · have hlog := downloadLoop_logs_failure env files f e st hf hfe hfn hsame
    simp only [syncPass]
    obtain ⟨t, ht⟩ := removeLoop_log_extend env files st.fs (downloadLoop env files st)
    rw [ht]
    exact List.mem_append.mpr (Or.inl hlog)
  · rw [hmemiff m]
    refine ⟨Or.inl hm, fun _ => Or.inr ?_⟩
    rw [hme]
    rfl
  · have hlog := removeLoop_logs_failure env files em st.fs m (downloadLoop env files st) hm hmA hme
    simp only [syncPass]
    exact hlog
  · intro m2 hm2 hm2A hm2ok
    rw [hmemiff m2]
    rintro ⟨-, himp⟩
    rcases himp hm2 with h1 | h1
    · exact absurd h1 (by simp [hm2A])
    · rw [hm2ok] at h1
      exact absurd h1 (by decide)

/-- C4 witness: in a concrete pass where bad.jpg fails to download and locked.tmp
fails to delete, the pass still returns the listing, a.jpg is downloaded, bad.jpg is
absent, locked.tmp survives and old.jpg is deleted. -/
theorem syncPass_skip_policy_witness :
    (syncFiles envPartial listingC4 stC4).result = Except.ok filesC4
    ∧ "a.jpg" ∈ (syncPass envPartial filesC4 stC4).fs
    ∧ "bad.jpg" ∉ (syncPass envPartial filesC4 stC4).fs
    ∧ "locked.tmp" ∈ (syncPass envPartial filesC4 stC4).fs
    ∧ "old.jpg" ∉ (syncPass envPartial filesC4 stC4).fs := by
  have h := syncPass_skip_policy envPartial listingC4 filesC4 stC4
    { id := "rBad", name := "bad.jpg", mimeType := "image/jpeg" } "boom" "locked.tmp" "locked"
    rfl (by decide) rfl (by decide)
    (by
      intro g hg hn
      fin_cases hg
      · exact absurd hn (by decide)
      · rfl)
    (by decide) (by decide) rfl
  refine ⟨h.1, ?_, h.2.2.2.2.1, h.2.2.2.2.2.2.2.1, ?_⟩
  · exact h.2.2.2.2.2.1 { id := "r1", name := "a.jpg", mimeType := "image/jpeg" }
      (by decide) (by decide)
  · exact h.2.2.2.2.2.2.2.2.2 "old.jpg" (by decide) (by decide) (by decide)

/-! ## Claim C5: bounded retry with linear backoff -/

/-- C5: syncFiles makes at most 3 attempts with linear backoff — failing on attempts
1 and 2 and succeeding on attempt 3 waits 1000 ms then 2000 ms, returns the third
attempt's file list, and performs exactly one set of downloads/deletions (on the
original mirror state); failing on all three attempts waits twice, performs no
downloads/deletions, and propagates the third error, which the periodic scheduler
catches and logs without altering the mirror. -/
theorem syncFiles_retry_policy
    (env : DriveEnv) (oc1 oc2 : Nat → Except String (List DriveFile)) (st : PassState)
    (e1 e2 d1 d2 d3 : String) (f3 : List DriveFile)
    (h11 : oc1 1 = Except.error e1) (h12 : oc1 2 = Except.error e2)
    (h13 : oc1 3 = Except.ok f3)
    (h21 : oc2 1 = Except.error d1) (h22 : oc2 2 = Except.error d2)
    (h23 : oc2 3 = Except.error d3) :
    (syncFiles env oc1 st).result = Except.ok f3
    ∧ (syncFiles env oc1 st).waits = [1000, 2000]
    ∧ (syncFiles env oc1 st).passes = 1
    ∧ (syncFiles env oc1 st).state.fs = (syncPass env f3 st).fs
    ∧ (syncFiles env oc2 st).result = Except.error d3
    ∧ (syncFiles env oc2 st).waits = [1000, 2000]
    ∧ (syncFiles env oc2 st).passes = 0
    ∧ (syncFiles env oc2 st).state.fs = st.fs
    ∧ (schedulerTick env oc2 false st).fs = st.fs
    ∧ ("Sync failed: " ++ d3) ∈ (schedulerTick env oc2 false st).log := by
  refine ⟨?_, ?_, ?_, ?_, ?_, ?_, ?_, ?_, ?_, ?_⟩
  · simp [syncFiles, MAX_RETRIES, syncFilesAux, h11, h12, h13]
  · simp [syncFiles, MAX_RETRIES, syncFilesAux, h11, h12, h13]
  · simp [syncFiles, MAX_RETRIES, syncFilesAux, h11, h12, h13]
  · simp only [syncFiles, MAX_RETRIES, syncFilesAux, h11, h12, h13]
    simp
    exact syncPass_fs_congr env f3 _ _ rfl
  · simp [syncFiles, MAX_RETRIES, syncFilesAux, h21, h22, h23]
  · simp [syncFiles, MAX_RETRIES, syncFilesAux, h21, h22, h23]
  · simp [syncFiles, MAX_RETRIES, syncFilesAux, h21, h22, h23]
  · simp [syncFiles, MAX_RETRIES, syncFilesAux, h21, h22, h23]
  · simp [schedulerTick, syncFiles, MAX_RETRIES, syncFilesAux, h21, h22, h23]
  · simp [schedulerTick, syncFiles, MAX_RETRIES, syncFilesAux, h21, h22, h23]

/-- C5 witness: a concrete oracle failing twice then succeeding returns the third
attempt's (empty) listing, and a concrete always-failing oracle propagates the
error. -/
theorem syncFiles_retry_policy_witness :
    (syncFiles envAllOk ocSucceedThird stExample).result = Except.ok []
    ∧ (syncFiles envAllOk ocSucceedThird stExample).waits = [1000, 2000]
    ∧ (syncFiles envAllOk ocAlwaysFail stExample).result = Except.error "listing failed" := by
  have h := syncFiles_retry_policy envAllOk ocSucceedThird ocAlwaysFail stExample
    "listing failed" "listing failed" "listing failed" "listing failed" "listing failed" []
    rfl rfl rfl rfl rfl rfl
  exact ⟨h.1, h.2.1, h.2.2.2.2.1⟩

/-! ## Claim C6: reconnect attempts are capped -/

/-- Events other than onopen never decrease the reconnect attempt counter. -/
theorem stepEvent_attempts_mono (cfg : WsConfig) (active : Bool) (ev : WsEvent)
    (st : ChannelState) (hne : ev ≠ WsEvent.wsOpen) :
    st.reconnectAttempts ≤ (stepEvent cfg active ev st).1.reconnectAttempts := by
  cases ev with
  | wsOpen => exact absurd rfl hne
  | wsMessage media =>
    simp only [stepEvent]
    split <;> simp [handleMediaMessage]
  | wsError => simp [stepEvent]
  | wsClose =>
    simp only [stepEvent]
    split
    · simp
    · simp

/-- Once the attempt counter has reached the cap, a run containing no open event
never schedules another reconnect. -/
theorem scheduledDelays_capped (cfg : WsConfig) (evs : List WsEvent) :
    ∀ st : ChannelState, cfg.maxReconnectAttempts ≤ st.reconnectAttempts →
      (∀ e ∈ evs, e ≠ WsEvent.wsOpen) → scheduledDelays cfg true evs st = [] := by
  induction evs with
  | nil => intro st _ _; rfl
  | cons ev rest ih =>
    intro st hcap hno
    have hne : ev ≠ WsEvent.wsOpen := hno ev (List.mem_cons_self ev rest)
    have hd : (stepEvent cfg true ev st).2 = none := by
      cases ev with
      | wsOpen => exact absurd rfl hne
      | wsMessage media => rfl
      | wsError => rfl
      | wsClose =>
        simp only [stepEvent]
        rw [if_neg]
        rintro ⟨-, hlt⟩
        omega
    have hcap2 : cfg.maxReconnectAttempts ≤ (stepEvent cfg true ev st).1.reconnectAttempts :=
      le_trans hcap (stepEvent_attempts_mono cfg true ev st hne)
    have hrec := ih (stepEvent cfg true ev st).1 hcap2
      (fun e he => hno e (List.mem_cons_of_mem ev he))
    show (stepEvent cfg true ev st).2.toList
        ++ scheduledDelays cfg true rest (stepEvent cfg true ev st).1 = []
    rw [hd, hrec]
    rfl

/-- scheduledDelays distributes over trace concatenation. -/
theorem scheduledDelays_append (cfg : WsConfig) (active : Bool) (l1 l2 : List WsEvent) :
    ∀ st, scheduledDelays cfg active (l1 ++ l2) st
      = scheduledDelays cfg active l1 st
        ++ scheduledDelays cfg active l2 (runEvents cfg active l1 st) := by
  induction l1 with
  | nil => intro st; rfl
  | cons e rest ih =>
    intro st
    show (stepEvent cfg active e st).2.toList
        ++ scheduledDelays cfg active (rest ++ l2) (stepEvent cfg active e st).1
      = ((stepEvent cfg active e st).2.toList
          ++ scheduledDelays cfg active rest (stepEvent cfg active e st).1)
        ++ scheduledDelays cfg active l2 (runEvents cfg active rest (stepEvent cfg active e st).1)
    rw [ih]
    rw [List.append_assoc]

/-- Each close below the cap schedules one reconnect at the configured interval and
advances the counter by one; k consecutive closes from counter a (with a + k within
the cap) schedule exactly k reconnects and leave the counter at a + k. -/
theorem closes_reach_cap (cfg : WsConfig) :
    ∀ (k : Nat) (st : ChannelState), st.reconnectAttempts + k ≤ cfg.maxReconnectAttempts →
      scheduledDelays cfg true (List.replicate k WsEvent.wsClose) st
        = List.replicate k cfg.reconnectInterval
      ∧ (runEvents cfg true (List.replicate k WsEvent.wsClose) st).reconnectAttempts
        = st.reconnectAttempts + k := by
  intro k
  induction k with
  | zero => intro st _; exact ⟨rfl, rfl⟩
  | succ k ih =>
    intro st hk
    have hlt : st.reconnectAttempts < cfg.maxReconnectAttempts := by omega
    have hstep : stepEvent cfg true WsEvent.wsClose st
        = ({ st with
              webSocketStatus := WsStatus.disconnected
              connOpen := false
              reconnectAttempts := st.reconnectAttempts + 1
              reconnectTimerPending := true },
           some cfg.reconnectInterval) := by
      simp [stepEvent, hlt]
    have h1 := ih (stepEvent cfg true WsEvent.wsClose st).1 (by rw [hstep]; simp; omega)
    constructor
    · rw [List.replicate_succ]
      show (stepEvent cfg true WsEvent.wsClose st).2.toList
          ++ scheduledDelays cfg true (List.replicate k WsEvent.wsClose)
              (stepEvent cfg true WsEvent.wsClose st).1
        = List.replicate (k + 1) cfg.reconnectInterval
      rw [h1.1, hstep, List.replicate_succ]
      rfl
    · rw [List.replicate_succ]
      show (runEvents cfg true (List.replicate k WsEvent.wsClose)
          (stepEvent cfg true WsEvent.wsClose st).1).reconnectAttempts
        = st.reconnectAttempts + (k + 1)
      rw [h1.2, hstep]
      simp
      omega

/-- C6: with the activation flag true, a close event below the cap schedules exactly
one reconnect after the fixed interval and increments the attempt counter; a
successful open resets the counter to 0; and a run of max-attempts consecutive
closes from a fresh counter schedules exactly max-attempts reconnects, after which
no further event (open excluded) ever schedules another. -/
theorem reconnect_cap (cfg : WsConfig) (st st0 : ChannelState) (evs : List WsEvent)
    (hlt : st.reconnectAttempts < cfg.maxReconnectAttempts)
    (h0 : st0.reconnectAttempts = 0)
    (hnoopen : ∀ e ∈ evs, e ≠ WsEvent.wsOpen) :
    (stepEvent cfg true WsEvent.wsClose st).2 = some cfg.reconnectInterval
    ∧ (stepEvent cfg true WsEvent.wsClose st).1.reconnectAttempts = st.reconnectAttempts + 1
    ∧ (stepEvent cfg true WsEvent.wsOpen st).1.reconnectAttempts = 0
    ∧ scheduledDelays cfg true
        (List.replicate cfg.maxReconnectAttempts WsEvent.wsClose ++ evs) st0
      = List.replicate cfg.maxReconnectAttempts cfg.reconnectInterval := by
  have hcap := closes_reach_cap cfg cfg.maxReconnectAttempts st0 (by omega)
  refine ⟨by simp [stepEvent, hlt], by simp [stepEvent, hlt], rfl, ?_⟩
  rw [scheduledDelays_append, hcap.1]
  have hnil : scheduledDelays cfg true evs
      (runEvents cfg true (List.replicate cfg.maxReconnectAttempts WsEvent.wsClose) st0) = [] := by
    apply scheduledDelays_capped
    · rw [hcap.2, h0]
      omega
    · exact hnoopen
  rw [hnil]
  simp

/-- C6 witness: with cap 2 and interval 7000, the trace of two closes followed by a
further close and an error schedules exactly two reconnects of 7000 ms. -/
theorem reconnect_cap_witness :
    scheduledDelays cfgEx true
        (List.replicate cfgEx.maxReconnectAttempts WsEvent.wsClose
          ++ [WsEvent.wsClose, WsEvent.wsError]) initChannelState
      = List.replicate cfgEx.maxReconnectAttempts cfgEx.reconnectInterval :=
  (reconnect_cap cfgEx initChannelState initChannelState [WsEvent.wsClose, WsEvent.wsError]
    (by decide) rfl (by decide)).2.2.2

/-! ## Claim C7: pause blocks syncing until resume -/

/-- While the paused flag is set, any sequence of operations not containing resume
executes zero sync passes and leaves the flag set. -/
theorem runJob_paused (ops : List JobOp) :
    ∀ st : JobState, st.isPaused = true → JobOp.resume ∉ ops →
      (runJob ops st).2 = 0 ∧ (runJob ops st).1.isPaused = true := by
  induction ops with
  | nil => intro st hp _; exact ⟨rfl, hp⟩
  | cons op rest ih =>
    intro st hp hnr
    have hnr2 : JobOp.resume ∉ rest := fun h => hnr (List.mem_cons_of_mem op h)
    have hop : op ≠ JobOp.resume := fun h => hnr (h ▸ List.mem_cons_self op rest)
    have hstep : (stepJob op st).2 = 0 ∧ (stepJob op st).1.isPaused = true := by
      cases op with
      | pause => exact ⟨rfl, rfl⟩
      | resume => exact absurd rfl hop
      | startSync => simp [stepJob, startSyncJob, hp]
      | stop => exact ⟨rfl, hp⟩
      | timerFire => simp [stepJob, hp]
    have hrec := ih (stepJob op st).1 hstep.2 hnr2
    have hcons : runJob (op :: rest) st
        = ((runJob rest (stepJob op st).1).1,
           (stepJob op st).2 + (runJob rest (stepJob op st).1).2) := rfl
    rw [hcons]
    exact ⟨by simp [hstep.1, hrec.1], hrec.2⟩

/-- C7: after pause(), no sync executes under any sequence of timer fires, startSync
calls, stops or further pauses until resume() is called; pause itself runs no sync;
and resume() clears the paused flag, reinstalls the schedule and runs one immediate
sync. -/
theorem pause_blocks_sync (st : JobState) (ops : List JobOp)
    (hnores : JobOp.resume ∉ ops) :
    (runJob ops (stepJob JobOp.pause st).1).2 = 0
    ∧ (stepJob JobOp.pause st).2 = 0
    ∧ stepJob JobOp.resume st = ({ isPaused := false, syncScheduled := true }, 1) := by
  exact ⟨(runJob_paused ops (stepJob JobOp.pause st).1 rfl hnores).1, rfl, rfl⟩

/-- C7 witness: a concrete post-pause trace of startSync, a timer fire, stop and a
second pause executes zero sync passes. -/
theorem pause_blocks_sync_witness :
    (runJob [JobOp.startSync, JobOp.timerFire, JobOp.stop, JobOp.pause]
      (stepJob JobOp.pause { isPaused := false, syncScheduled := true }).1).2 = 0 :=
  (pause_blocks_sync { isPaused := false, syncScheduled := true }
    [JobOp.startSync, JobOp.timerFire, JobOp.stop, JobOp.pause] (by decide)).1

/-! ## Claim C8: downloadFile stream semantics -/

/-- C8 at the failing input: the promise built by downloadFile resolves on the write
stream's finish event and rejects on a write-stream error, but on a read-stream
error it never settles — the source attaches no handler to the remote stream and
pipe does not forward source errors, so neither resolve nor reject runs, contrary to
the claim (and to the function's own documentation) that any stream-level error
rejects the operation. -/
theorem downloadFile_stream_semantics :
    downloadFile (StreamOutcome.sourceError "ECONNRESET") = none
    ∧ downloadFile StreamOutcome.finish = some (Except.ok ())
    ∧ downloadFile (StreamOutcome.destError "EACCES") = some (Except.error "EACCES") :=
  ⟨rfl, rfl, rfl⟩

/-! ## Claim C9: the exposed serverReady flag -/

/-- No event handler ever clears the serverReady state cell. -/
theorem stepEvent_serverReady_mono (cfg : WsConfig) (active : Bool) (ev : WsEvent)
    (st : ChannelState) (h : st.serverReady = true) :
    (stepEvent cfg active ev st).1.serverReady = true := by
  cases ev with
  | wsOpen => rfl
  | wsMessage media =>
    simp only [stepEvent]
    split
    · simpa [handleMediaMessage] using h
    · exact h
  | wsError => exact h
  | wsClose =>
    simp only [stepEvent]
    split
    · exact h
    · exact h

/-- Once set, serverReady remains set across any further run of events. -/
theorem runEvents_serverReady_mono (cfg : WsConfig) (active : Bool) (evs : List WsEvent) :
    ∀ st : ChannelState, st.serverReady = true →
      (runEvents cfg active evs st).serverReady = true := by
  induction evs with
  | nil => intro st h; exact h
  | cons e rest ih =>
    intro st h
    exact ih _ (stepEvent_serverReady_mono cfg active e st h)

/-- Without an open event, starting from a never-connected state (serverReady false,
socket closed, no items), a run changes none of those three facts: messages are not
deliverable on a socket that never opened. -/
theorem runEvents_no_open (cfg : WsConfig) (active : Bool) (evs : List WsEvent) :
    ∀ st : ChannelState, WsEvent.wsOpen ∉ evs →
      st.serverReady = false → st.connOpen = false → st.allMedia = [] →
      (runEvents cfg active evs st).serverReady = false
      ∧ (runEvents cfg active evs st).connOpen = false
      ∧ (runEvents cfg active evs st).allMedia = [] := by
  induction evs with
  | nil => intro st _ h1 h2 h3; exact ⟨h1, h2, h3⟩
  | cons e rest ih =>
    intro st hno h1 h2 h3
    have hne : e ≠ WsEvent.wsOpen := fun h => hno (h ▸ List.mem_cons_self e rest)
    have hstep : (stepEvent cfg active e st).1.serverReady = false
        ∧ (stepEvent cfg active e st).1.connOpen = false
        ∧ (stepEvent cfg active e st).1.allMedia = [] := by
      cases e with
      | wsOpen => exact absurd rfl hne
      | wsMessage media =>
        simp only [stepEvent]
        rw [if_neg (by simp [h2])]
        exact ⟨h1, h2, h3⟩
      | wsError => exact ⟨h1, h2, h3⟩
      | wsClose =>
        simp only [stepEvent]
        split
        · exact ⟨h1, rfl, h3⟩
        · exact ⟨h1, rfl, h3⟩
    exact ih _ (fun h => hno (List.mem_cons_of_mem e h)) hstep.1 hstep.2.1 hstep.2.2

/-- An open event anywhere in the run sets serverReady for good. -/
theorem runEvents_open_ready (cfg : WsConfig) (active : Bool) (evs : List WsEvent) :
    ∀ st : ChannelState, WsEvent.wsOpen ∈ evs →
      (runEvents cfg active evs st).serverReady = true := by
  induction evs with
  | nil => intro st h; exact absurd h (List.not_mem_nil _)
  | cons e rest ih =>
    intro st hmem
    rcases List.mem_cons.mp hmem with he | hm
    · subst he
      exact runEvents_serverReady_mono cfg active rest _ rfl
    · exact ih _ hm

/-- C9 counterexample: after the concrete trace consisting of a single open event —
so the channel connected but never received any data (loading is still true) and no
items exist — the exposed serverReady flag is already true, refuting "true exactly
when the channel has ever connected-with-data or any items currently exist". -/
theorem serverReady_no_data_cex :
    serverReadyExposed (runEvents cfgEx true [WsEvent.wsOpen] initChannelState) = true
    ∧ (runEvents cfgEx true [WsEvent.wsOpen] initChannelState).allMedia = []
    ∧ (runEvents cfgEx true [WsEvent.wsOpen] initChannelState).loading = true := by
  decide

/-- C9 (amended): for every run from the initial state, the exposed serverReady flag
is true exactly when the channel has ever connected (an open event occurred,
regardless of data) or items currently exist; and the flag is sticky — once true it
never becomes false again under any further events. -/
theorem serverReady_characterization (cfg : WsConfig) (active : Bool)
    (evs evs2 : List WsEvent) :
    (serverReadyExposed (runEvents cfg active evs initChannelState) = true
      ↔ WsEvent.wsOpen ∈ evs ∨ (runEvents cfg active evs initChannelState).allMedia ≠ [])
    ∧ (serverReadyExposed (runEvents cfg active evs initChannelState) = true →
        serverReadyExposed (runEvents cfg active evs2
          (runEvents cfg active evs initChannelState)) = true) := by
  have hexp : ∀ st : ChannelState,
      serverReadyExposed st = true ↔ st.serverReady = true ∨ 0 < st.allMedia.length := by
    intro st
    simp [serverReadyExposed, Bool.or_eq_true]
  constructor
  · rw [hexp]
    constructor
    · rintro (hsr | hlen)
      · by_cases ho : WsEvent.wsOpen ∈ evs
        · exact Or.inl ho
        · have hf := (runEvents_no_open cfg active evs initChannelState ho rfl rfl rfl).1
          rw [hf] at hsr
          exact absurd hsr (by decide)
      · refine Or.inr ?_
        intro h
        rw [h] at hlen
        simp at hlen
    · rintro (ho | hne)
      · exact Or.inl (runEvents_open_ready cfg active evs initChannelState ho)
      · exact Or.inr (List.length_pos.mpr hne)
  · intro hsr
    rw [hexp] at hsr
    have hsr2 : (runEvents cfg active evs initChannelState).serverReady = true := by
      rcases hsr with h | h
      · exact h
      · rcases Bool.eq_false_or_eq_true
          (runEvents cfg active evs initChannelState).serverReady with hb | hb
        · exact hb
        · by_cases ho : WsEvent.wsOpen ∈ evs
          · exact runEvents_open_ready cfg active evs initChannelState ho
          · have hmt := (runEvents_no_open cfg active evs initChannelState ho rfl rfl rfl).2.2
            rw [hmt] at h
            simp at h
    rw [hexp]
    exact Or.inl (runEvents_serverReady_mono cfg active evs2 _ hsr2)

/-- C9 witness: concretely, after an open followed by a close (a later full
disconnection), the exposed flag is still true. -/
theorem serverReady_characterization_witness :
    serverReadyExposed (runEvents cfgEx true [WsEvent.wsClose]
      (runEvents cfgEx true [WsEvent.wsOpen] initChannelState)) = true :=
  (serverReady_characterization cfgEx true [WsEvent.wsOpen] [WsEvent.wsClose]).2 (by decide)

/-! ## Claim C10: nested folders are fetched twice -/

/-- countFile distributes over list concatenation. -/
theorem countFile_append (i n : String) :
    ∀ l1 l2 : List DriveEntry,
      countFile i n (l1 ++ l2) = countFile i n l1 + countFile i n l2 := by
  intro l1 l2
  induction l1 with
  | nil => simp [countFile]
  | cons e rest ih =>
    cases e with
    | fileE i2 n2 => simp [countFile, ih, Nat.add_assoc]
    | folderE i2 n2 cs => simp [countFile, ih]

/-- A file record that is an element of a list is counted at least once. -/
theorem countFile_pos_of_mem (i n : String) :
    ∀ l : List DriveEntry, DriveEntry.fileE i n ∈ l → 1 ≤ countFile i n l := by
  intro l
  induction l with
  | nil => intro h; exact absurd h (List.not_mem_nil _)
  | cons e rest ih =>
    intro h
    rcases List.mem_cons.mp h with he | hm
    · rw [← he]
      simp [countFile]
    · cases e with
      | fileE i2 n2 =>
        have := ih hm
        simp only [countFile]
        omega
      | folderE i2 n2 cs => simpa [countFile] using ih hm

/-- A file record counted at least once is an element of the list. -/
theorem mem_of_countFile_pos (i n : String) :
    ∀ l : List DriveEntry, 1 ≤ countFile i n l → DriveEntry.fileE i n ∈ l := by
  intro l
  induction l with
  | nil => intro h; simp [countFile] at h
  | cons e rest ih =>
    intro h
    cases e with
    | fileE i2 n2 =>
      by_cases hh : i2 = i ∧ n2 = n
      · rw [hh.1, hh.2]
        exact List.mem_cons_self _ _
      · simp only [countFile, if_neg hh] at h
        exact List.mem_cons_of_mem _ (ih (by omega))
    | folderE i2 n2 cs =>
      simp only [countFile] at h
      exact List.mem_cons_of_mem _ (ih h)

/-- A list counting some file record at least twice has duplicates. -/
theorem not_nodup_of_countFile_two (i n : String) :
    ∀ l : List DriveEntry, 2 ≤ countFile i n l → ¬ l.Nodup := by
  intro l
  induction l with
  | nil => intro h; simp [countFile] at h
  | cons e rest ih =>
    intro h hnd
    rw [List.nodup_cons] at hnd
    cases e with
    | fileE i2 n2 =>
      by_cases hh : i2 = i ∧ n2 = n
      · have hrest : 1 ≤ countFile i n rest := by
          simp only [countFile, if_pos hh] at h
          omega
        have hmem := mem_of_countFile_pos i n rest hrest
        rw [hh.1, hh.2] at hnd
        exact hnd.1 hmem
      · refine ih ?_ hnd.2
        simpa [countFile, if_neg hh] using h
    | folderE i2 n2 cs =>
      refine ih ?_ hnd.2
      simpa [countFile] using h

/-- The validity filter of listFiles preserves the count of a valid file record. -/
theorem countFile_listFilesFetched (isValidFile : String → Bool) (i n : String)
    (hv : isValidFile n = true) :
    ∀ l : List DriveEntry,
      countFile i n (listFilesFetched isValidFile l) = countFile i n l := by
  intro l
  induction l with
  | nil => rfl
  | cons e rest ih =>
    simp only [listFilesFetched, List.filter_cons] at ih ⊢
    cases e with
    | fileE i2 n2 =>
      by_cases hk : isValidFile (entryName (DriveEntry.fileE i2 n2)) = true
      · rw [if_pos hk]
        simp only [countFile]
        rw [ih]
      · rw [if_neg hk]
        have hz : ¬ (i2 = i ∧ n2 = n) := by
          rintro ⟨-, hn2⟩
          rw [hn2] at hk
          exact hk hv
        simp only [countFile, if_neg hz, ih]
        omega
    | folderE i2 n2 cs =>
      by_cases hk : isValidFile (entryName (DriveEntry.folderE i2 n2 cs)) = true
      · rw [if_pos hk]
        simp only [countFile]
        exact ih
      · rw [if_neg hk]
        simp only [countFile]
        exact ih

/-- The fetch loop is deterministic: pending worklist determines the output. -/
theorem FetchFilesFromDrive_det {p o1 : List DriveEntry} (h1 : FetchFilesFromDrive p o1) :
    ∀ o2, FetchFilesFromDrive p o2 → o1 = o2 := by
  induction h1 with
  | nil =>
    intro o2 h2
    cases h2
    rfl
  | file i n rest out h ih =>
    intro o2 h2
    cases h2 with
    | file _ _ _ out2 h2' => rw [ih _ h2']
  | folder i n cs rest sub out hsub hmain ihsub ihmain =>
    intro o2 h2
    cases h2 with
    | folder _ _ _ _ sub2 out2 hsub2 hmain2 =>
      have hs := ihsub _ hsub2
      rw [← hs] at hmain2
      rw [ihmain _ hmain2]

/-- The fetch loop emits every pending entry: counts never decrease. -/
theorem countFile_le_of_fetch (i n : String) {p out : List DriveEntry}
    (h : FetchFilesFromDrive p out) : countFile i n p ≤ countFile i n out := by
  induction h with
  | nil => exact Nat.le_refl 0
  | file i2 n2 rest out h ih =>
    simp only [countFile]
    omega
  | folder i2 n2 cs rest sub out hsub hmain ihsub ihmain =>
    have hap := countFile_append i n rest sub
    simp only [countFile]
    omega

/-- When a folder entry is pending, the loop also emits that folder's own fetched
expansion, on top of every pending entry. -/
theorem countFile_fetch_expand (i n : String) {p out : List DriveEntry}
    (h : FetchFilesFromDrive p out) :
    ∀ (fi fn : String) (cs sub : List DriveEntry),
      DriveEntry.folderE fi fn cs ∈ p → FetchFilesFromDrive cs sub →
      countFile i n p + countFile i n sub ≤ countFile i n out := by
  induction h with
  | nil =>
    intro fi fn cs sub hmem _
    exact absurd hmem (List.not_mem_nil _)
  | file i2 n2 rest out h ih =>
    intro fi fn cs sub hmem hsub
    rcases List.mem_cons.mp hmem with he | hm
    · exact absurd he (by simp)
    · have := ih fi fn cs sub hm hsub
      simp only [countFile]
      omega
  | folder i2 n2 cs2 rest sub2 out hsub2 hmain ihsub ihmain =>
    intro fi fn cs sub hmem hsub
    rcases List.mem_cons.mp hmem with he | hm
    · injection he with e1 e2 e3
      subst e3
      have hdet := FetchFilesFromDrive_det hsub _ hsub2
      subst hdet
      have hA := countFile_le_of_fetch i n hmain
      have hap := countFile_append i n rest sub
      simp only [countFile]
      omega
    · have hm2 : DriveEntry.folderE fi fn cs ∈ rest ++ sub2 :=
        List.mem_append.mpr (Or.inl hm)
      have := ihmain fi fn cs sub hm2 hsub
      have hap := countFile_append i n rest sub2
      simp only [countFile]
      omega

/-- When a folder entry occurs in the output, its own fetched expansion was also
emitted, on top of every pending entry. -/
theorem countFile_fetch_expand_out (i n : String) {p out : List DriveEntry}
    (h : FetchFilesFromDrive p out) :
    ∀ (fi fn : String) (cs sub : List DriveEntry),
      DriveEntry.folderE fi fn cs ∈ out → FetchFilesFromDrive cs sub →
      countFile i n p + countFile i n sub ≤ countFile i n out := by
  induction h with
  | nil =>
    intro fi fn cs sub hmem _
    exact absurd hmem (List.not_mem_nil _)
  | file i2 n2 rest out h ih =>
    intro fi fn cs sub hmem hsub
    rcases List.mem_cons.mp hmem with he | hm
    · exact absurd he (by simp)
    · have := ih fi fn cs sub hm hsub
      simp only [countFile]
      omega
  | folder i2 n2 cs2 rest sub2 out hsub2 hmain ihsub ihmain =>
    intro fi fn cs sub hmem hsub
    rcases List.mem_cons.mp hmem with he | hm
    · injection he with e1 e2 e3
      subst e3
      have hdet := FetchFilesFromDrive_det hsub _ hsub2
      subst hdet
      have hA := countFile_le_of_fetch i n hmain
      have hap := countFile_append i n rest sub
      simp only [countFile]
      omega
    · have := ihmain fi fn cs sub hm hsub
      have hap := countFile_append i n rest sub2
      simp only [countFile]
      omega

/-- A folder pending in the worklist whose expansion contains another folder gets
that inner folder re-expanded by the outer loop: the output contains the pending
entries plus both expansions. -/
theorem countFile_fetch_double (i n : String) {p out : List DriveEntry}
    (h : FetchFilesFromDrive p out) :
    ∀ (i1 n1 : String) (cs1 sub1 : List DriveEntry) (i2 n2 : String)
      (cs2 sub2 : List DriveEntry),
      DriveEntry.folderE i1 n1 cs1 ∈ p → FetchFilesFromDrive cs1 sub1 →
      DriveEntry.folderE i2 n2 cs2 ∈ sub1 → FetchFilesFromDrive cs2 sub2 →
      countFile i n p + countFile i n sub1 + countFile i n sub2 ≤ countFile i n out := by
  induction h with
  | nil =>
    intro i1 n1 cs1 sub1 i2 n2 cs2 sub2 h1 _ _ _
    exact absurd h1 (List.not_mem_nil _)
  | file j m rest out h ih =>
    intro i1 n1 cs1 sub1 i2 n2 cs2 sub2 h1 hs1 h2 hs2
    rcases List.mem_cons.mp h1 with he | hm
    · exact absurd he (by simp)
    · have := ih i1 n1 cs1 sub1 i2 n2 cs2 sub2 hm hs1 h2 hs2
      simp only [countFile]
      omega
  | folder j m csG rest subG out hsubG hmain ihsub ihmain =>
    intro i1 n1 cs1 sub1 i2 n2 cs2 sub2 h1 hs1 h2 hs2
    rcases List.mem_cons.mp h1 with he | hm
    · injection he with e1 e2 e3
      subst e3
      have hdet := FetchFilesFromDrive_det hs1 _ hsubG
      subst hdet
      have hmem2 : DriveEntry.folderE i2 n2 cs2 ∈ rest ++ sub1 :=
        List.mem_append.mpr (Or.inr h2)
      have hB := countFile_fetch_expand i n hmain i2 n2 cs2 sub2 hmem2 hs2
      have hap := countFile_append i n rest sub1
      simp only [countFile]
      omega
    · have hm2 : DriveEntry.folderE i1 n1 cs1 ∈ rest ++ subG :=
        List.mem_append.mpr (Or.inl hm)
      have := ihmain i1 n1 cs1 sub1 i2 n2 cs2 sub2 hm2 hs1 h2 hs2
      have hap := countFile_append i n rest subG
      simp only [countFile]
      omega

/-- C10: whenever a valid file lies in a subfolder nested two or more levels below
the root — a folder entry of the root listing whose expansion contains another
folder entry whose own expansion contains the file — the fetch loop returns that
file's record at least twice, and the filtered list returned by listFiles is not
duplicate-free. -/
theorem fetchFiles_duplicates_nested (isValidFile : String → Bool)
    (csRoot out : List DriveEntry) (i1 n1 : String) (cs1 sub1 : List DriveEntry)
    (i2 n2 : String) (cs2 sub2 : List DriveEntry) (ix nx : String)
    (hroot : FetchFilesFromDrive csRoot out)
    (h1 : DriveEntry.folderE i1 n1 cs1 ∈ csRoot)
    (hs1 : FetchFilesFromDrive cs1 sub1)
    (h2 : DriveEntry.folderE i2 n2 cs2 ∈ sub1)
    (hs2 : FetchFilesFromDrive cs2 sub2)
    (hx : DriveEntry.fileE ix nx ∈ sub2)
    (hv : isValidFile nx = true) :
    2 ≤ countFile ix nx out ∧ ¬ (listFilesFetched isValidFile out).Nodup := by
  have hc2 : 1 ≤ countFile ix nx sub2 := countFile_pos_of_mem ix nx sub2 hx
  have hc1 : countFile ix nx cs1 + countFile ix nx sub2 ≤ countFile ix nx sub1 :=
    countFile_fetch_expand_out ix nx hs1 i2 n2 cs2 sub2 h2 hs2
  have hout := countFile_fetch_double ix nx hroot i1 n1 cs1 sub1 i2 n2 cs2 sub2 h1 hs1 h2 hs2
  have h2out : 2 ≤ countFile ix nx out := by omega
  refine ⟨h2out, ?_⟩
  apply not_nodup_of_countFile_two ix nx
  rw [countFile_listFilesFetched isValidFile ix nx hv out]
  exact h2out

/-- C10 witness: on the concrete tree root/Sub1/Sub2/x.jpg, the fetched list is
[Sub1, Sub2, x.jpg, x.jpg] — the file record appears twice and the filtered listing
has duplicates. -/
theorem fetchFiles_duplicates_nested_witness :
    2 ≤ countFile "f3" "x.jpg" [entF1, entF2, entX, entX]
    ∧ ¬ (listFilesFetched (fun nm => nm == "x.jpg") [entF1, entF2, entX, entX]).Nodup := by
  have hs2 : FetchFilesFromDrive [entX] [entX] :=
    FetchFilesFromDrive.file "f3" "x.jpg" [] [] FetchFilesFromDrive.nil
  have hs1 : FetchFilesFromDrive [entF2] [entF2, entX] :=
    FetchFilesFromDrive.folder "f2" "Sub2" [entX] [] [entX] [entX] hs2 hs2
  have hmain : FetchFilesFromDrive [entF2, entX] [entF2, entX, entX] :=
    FetchFilesFromDrive.folder "f2" "Sub2" [entX] [entX] [entX] [entX, entX] hs2
      (FetchFilesFromDrive.file "f3" "x.jpg" [entX] [entX]
        (FetchFilesFromDrive.file "f3" "x.jpg" [] [] FetchFilesFromDrive.nil))
  have hroot : FetchFilesFromDrive [entF1] [entF1, entF2, entX, entX] :=
    FetchFilesFromDrive.folder "f1" "Sub1" [entF2] [] [entF2, entX] [entF2, entX, entX]
      hs1 hmain
  exact fetchFiles_duplicates_nested (fun nm => nm == "x.jpg") [entF1]
    [entF1, entF2, entX, entX] "f1" "Sub1" [entF2] [entF2, entX] "f2" "Sub2" [entX] [entX]
    "f3" "x.jpg" hroot (List.mem_singleton.mpr rfl) hs1 (List.mem_cons_self _ _) hs2
    (List.mem_singleton.mpr rfl) (by decide)
